import Mathlib

/-!
Shallow embedding of the playlist-sync core of `app/spotify.py` and the
deletion ledger of `app/database.py`.

Modelling conventions:
* a Spotify track is its `id` (identity) together with its `uri` (the handle
  used by mutation calls); display names are only used in log strings and are
  omitted;
* the remote playlist is the ordered list of its track entries;
* the Python `set` of playlist track ids built by `_get_all_playlist_tracks`
  is modelled as the deduplicated list of ids (`List.dedup` keeps the first
  occurrence; only membership is ever used);
* the `liked_tracks` dict (id → uri, insertion ordered) is modelled as the
  list of its tracks in iteration order;
* every remote mutation issued to the Spotify API is reified as a `MutCall`,
  and each operation returns the trace of the mutation calls it issued, so
  batching and call-size properties can be stated; `applyCall` gives the
  remote semantics of one call (`playlist_remove_all_occurrences_of_items`
  removes every entry whose id is listed; `playlist_add_items` with
  `position=0` inserts at the head, without a position it appends);
* the Postgres table `deleted_songs` is the list of its rows in insertion
  order, `SELECT` without `ORDER BY` scans in that order, and
  `ORDER BY deleted_at DESC LIMIT 1` returns the first row holding the
  maximal `deleted_at`; `CURRENT_TIMESTAMP` is an abstract `Nat` supplied by
  the caller (one transaction, one timestamp), and `uuid4` batch ids are
  abstract `Nat`s supplied fresh by the caller;
* database connectivity (`get_db_connection` returning `None`) is a `dbUp`
  flag on the state.
-/

namespace SyncSpec

/-- A track: `id` is the stable identity, `uri` the mutation handle
(`item['track']['id']` / `item['track']['uri']` in `spotify.py`). -/
structure Track where
  id : String
  uri : String
deriving DecidableEq, Repr

/-- One row of the `deleted_songs` table created in `app/database.py`
(`initialize_db`): `(user_id, playlist_id, song_id, song_uri, deleted_at,
batch_id)`; the serial primary key is the row's position in the list. -/
structure LedgerRow where
  user : String
  playlistId : String
  songId : String
  songUri : String
  deletedAt : Nat
  batch : Nat
deriving DecidableEq, Repr

/-- A remote mutation call issued to the Spotify API.
`remove ids` is `playlist_remove_all_occurrences_of_items(playlist_id, ids)`;
`add ts pos` is `playlist_add_items(playlist_id, uris, position)`, where the
payload is represented by the tracks the uris denote and `pos = none` means
the call was made without a `position` argument (append). -/
inductive MutCall where
  | remove (ids : List String)
  | add (tracks : List Track) (pos : Option Nat)
deriving DecidableEq, Repr

/-- Remote-playlist semantics of one mutation call. -/
def applyCall (playlist : List Track) : MutCall → List Track
  | .remove ids => playlist.filter fun t => decide (t.id ∉ ids)
  | .add ts (some p) => playlist.take p ++ ts ++ playlist.drop p
  | .add ts none => playlist ++ ts

/-- Remote-playlist semantics of a sequence of mutation calls. -/
def applyCalls (playlist : List Track) (calls : List MutCall) : List Track :=
  calls.foldl applyCall playlist

/-- The chunking `[l[i:i+100] for i in range(0, len(l), 100)]` used by
`_add_tracks` (line 85) and by the loop of `_remove_tracks` (lines 75-76):
`(len+99)/100` chunks, the k-th being `l[100*k : 100*k+100]`. -/
def chunksOf100 (l : List α) : List (List α) :=
  (List.range ((l.length + 99) / 100)).map fun k => (l.drop (100 * k)).take 100

/-- The Python set `playlist_track_ids` built by `_get_all_playlist_tracks`:
the playlist's track ids, deduplicated. -/
def effectivePlaylistIds (playlist : List Track) : List String :=
  (playlist.map Track.id).dedup

/-- `tracks_to_add_uris` of `run_sync_logic` (line 123): liked tracks whose id
is not in the playlist set, in liked-dict iteration order (the uri list is the
image of this list under `Track.uri`). -/
def tracksToAdd (liked playlist : List Track) : List Track :=
  liked.filter fun t => decide (t.id ∉ effectivePlaylistIds playlist)

/-- `tracks_to_remove_ids` of `run_sync_logic` (line 124): the set difference
`playlist_track_ids - liked_track_ids`, as a list of ids. -/
def tracksToRemoveIds (liked playlist : List Track) : List String :=
  (effectivePlaylistIds playlist).filter fun i => decide (i ∉ liked.map Track.id)

/-- The remote calls issued by `_remove_tracks` (lines 70-78): one
`remove` call per 100-chunk, in forward chunk order. -/
def removeTracksCalls (ids : List String) : List MutCall :=
  (chunksOf100 ids).map MutCall.remove

/-- The remote calls issued by `_add_tracks` (lines 80-88): one
`add`-at-position-0 call per 100-chunk, in reverse chunk order
(`for chunk in reversed(chunks)`). -/
def addTracksCalls (ts : List Track) : List MutCall :=
  (chunksOf100 ts).reverse.map fun c => MutCall.add c (some 0)

/-- The mutation calls of one `run_sync_logic` run (lines 119-127): removals
first, then additions. -/
def reconcileCalls (liked playlist : List Track) : List MutCall :=
  removeTracksCalls (tracksToRemoveIds liked playlist)
    ++ addTracksCalls (tracksToAdd liked playlist)

/-- The remote playlist after one `run_sync_logic` run over fetched state
`liked` / `playlist`. -/
def reconcileApply (liked playlist : List Track) : List Track :=
  applyCalls playlist (reconcileCalls liked playlist)

/-- `sync_result["synced_count"]` of `run_sync_logic` (line 129):
`len(tracks_to_add_uris)`. -/
def syncedCount (liked playlist : List Track) : Nat :=
  (tracksToAdd liked playlist).length

/-- The ledger row inserted for one song by `log_deleted_songs`. -/
def mkRow (user pl : String) (b t : Nat) (s : Track) : LedgerRow :=
  ⟨user, pl, s.id, s.uri, t, b⟩

/-- `log_deleted_songs` of `app/database.py` (lines 46-64): if the store is
reachable, insert one row per song, in order, all rows tagged with the batch
id and the transaction timestamp, committed atomically; if `get_db_connection`
returned `None`, return silently with the table unchanged. -/
def log_deleted_songs (dbUp : Bool) (db : List LedgerRow) (user pl : String)
    (songs : List Track) (b t : Nat) : List LedgerRow :=
  if dbUp then db ++ songs.map (mkRow user pl b t) else db

/-- The row produced by `ORDER BY deleted_at DESC LIMIT 1`: the first row of
the list holding the maximal `deleted_at` (the SQL tie-break is unspecified;
this model fixes scan order). -/
def latestRow : List LedgerRow → Option LedgerRow
  | [] => none
  | r :: rs =>
    match latestRow rs with
    | none => some r
    | some m => if r.deletedAt ≥ m.deletedAt then some r else some m

/-- `get_last_deleted_batch` of `app/database.py` (lines 66-102): pick the
most recent `batch_id` for the `(user_id, playlist_id)` pair, then return all
rows carrying that batch id as `(song_id, song_uri)` pairs in scan order;
`(None, [])` when the pair has no rows or the store is unreachable. -/
def get_last_deleted_batch (dbUp : Bool) (db : List LedgerRow) (user pl : String) :
    Option Nat × List (String × String) :=
  if dbUp then
    match latestRow (db.filter fun r => decide (r.user = user ∧ r.playlistId = pl)) with
    | none => (none, [])
    | some m =>
        (some m.batch,
         (db.filter fun r => decide (r.batch = m.batch)).map fun r => (r.songId, r.songUri))
  else (none, [])

/-- `clear_deleted_batch` of `app/database.py` (lines 104-118): delete every
row of the batch; no-op when the store is unreachable. -/
def clear_deleted_batch (dbUp : Bool) (db : List LedgerRow) (b : Nat) : List LedgerRow :=
  if dbUp then db.filter fun r => decide (r.batch ≠ b) else db

/-- Combined remote + ledger state an orchestrator operation acts on. -/
structure SpotState where
  playlist : List Track
  db : List LedgerRow
  dbUp : Bool
deriving DecidableEq, Repr

/-- Result dict of `remove_last_x_songs`: `success`, and on success
`deleted_count` and `batch_id`. -/
structure DeleteResult where
  success : Bool
  deletedCount : Option Nat
  batchId : Option Nat
deriving DecidableEq, Repr

/-- Result dict of `undo_last_deletion`: `success`, and on success
`restored_count`. -/
structure UndoResult where
  success : Bool
  restoredCount : Option Nat
deriving DecidableEq, Repr

/-- `remove_last_x_songs` of `app/spotify.py` (lines 142-195). Returns the
new state, the result dict, and the trace of remote mutation calls issued.
`n <= 0` is rejected first; then the playlist is fetched and `n` larger than
its length is rejected; otherwise the trailing `n` tracks
(`playlist_tracks[-n:]`) are logged to the ledger (line 179) and removed
remotely with a single unchunked
`playlist_remove_all_occurrences_of_items` call (line 183). `b` is the
`uuid4()` batch id, `t` the database timestamp. -/
def remove_last_x_songs (st : SpotState) (user pl : String) (n : Int) (b t : Nat) :
    SpotState × DeleteResult × List MutCall :=
  if n ≤ 0 then (st, ⟨false, none, none⟩, [])
  else if (st.playlist.length : Int) < n then (st, ⟨false, none, none⟩, [])
  else
    let toDel := st.playlist.drop (st.playlist.length - n.toNat)
    let db' := log_deleted_songs st.dbUp st.db user pl toDel b t
    let calls := [MutCall.remove (toDel.map Track.id)]
    (⟨applyCalls st.playlist calls, db', st.dbUp⟩,
     ⟨true, some toDel.length, some b⟩, calls)

/-- `undo_last_deletion` of `app/spotify.py` (lines 198-230). Fetches the
latest ledger batch; if there is none (or it is empty) reports
`success: False` with no remote call; otherwise re-adds all its uris with a
single `playlist_add_items` call carrying no position argument (append,
line 217), then clears the batch (line 220). -/
def undo_last_deletion (st : SpotState) (user pl : String) :
    SpotState × UndoResult × List MutCall :=
  match get_last_deleted_batch st.dbUp st.db user pl with
  | (none, _) => (st, ⟨false, none⟩, [])
  | (some b, songs) =>
    if songs.isEmpty then (st, ⟨false, none⟩, [])
    else
      let restored := songs.map fun su => Track.mk su.1 su.2
      let calls := [MutCall.add restored none]
      (⟨applyCalls st.playlist calls, clear_deleted_batch st.dbUp st.db b, st.dbUp⟩,
       ⟨true, some songs.length⟩, calls)

/-- Sample 250-track to-add list used to instantiate the batching theorem. -/
def sample250 : List Track :=
  (List.range 250).map fun k => Track.mk (toString k) (toString k)

/-- Sample tracks used to instantiate theorems on concrete inputs. -/
def tA : Track := ⟨"A", "uA"⟩

def tB : Track := ⟨"B", "uB"⟩

def tC : Track := ⟨"C", "uC"⟩

def tD : Track := ⟨"D", "uD"⟩

def tE : Track := ⟨"E", "uE"⟩

/-- The delete step of the delete-then-undo-twice scenario: `delete_last(n=2)`
run on playlist `P` with an empty ledger and the store reachable. -/
def deleteStep (P : List Track) (user pl : String) (b t : Nat) :
    SpotState × DeleteResult × List MutCall :=
  remove_last_x_songs ⟨P, [], true⟩ user pl 2 b t

/-- The first undo of the scenario, run on the state the delete left. -/
def undoStep1 (P : List Track) (user pl : String) (b t : Nat) :
    SpotState × UndoResult × List MutCall :=
  undo_last_deletion (deleteStep P user pl b t).1 user pl

/-- The second, immediate undo of the scenario. -/
def undoStep2 (P : List Track) (user pl : String) (b t : Nat) :
    SpotState × UndoResult × List MutCall :=
  undo_last_deletion (undoStep1 P user pl b t).1 user pl

theorem chunksOf100_flatten_aux (n : Nat) (l : List α) :
    ((List.range n).map fun k => (l.drop (100 * k)).take 100).flatten = l.take (100 * n) := by
  induction n with
  | zero => simp
  | succ n ih =>
    rw [List.range_succ, List.map_append, List.flatten_append, ih]
    have h : 100 * (n + 1) = 100 * n + 100 := by ring
    rw [h, List.take_add]
    simp

theorem chunksOf100_flatten (l : List α) : (chunksOf100 l).flatten = l := by
  unfold chunksOf100
  rw [chunksOf100_flatten_aux]
  exact List.take_of_length_le (by omega)

theorem chunksOf100_nil : chunksOf100 ([] : List α) = [] := by
  simp [chunksOf100]

theorem applyCalls_append (P : List Track) (cs ds : List MutCall) :
    applyCalls P (cs ++ ds) = applyCalls (applyCalls P cs) ds :=
  List.foldl_append ..

theorem applyCalls_removes (css : List (List String)) (P : List Track) :
    applyCalls P (css.map MutCall.remove)
      = P.filter fun s => decide (s.id ∉ css.flatten) := by
  induction css generalizing P with
  | nil =>
    show P = P.filter fun s => decide (s.id ∉ ([] : List String))
    exact (List.filter_eq_self.mpr (by simp)).symm
  | cons c css ih =>
    show applyCalls (applyCall P (MutCall.remove c)) (css.map MutCall.remove) = _
    rw [ih]
    show (P.filter _).filter _ = _
    rw [List.filter_filter]
    refine List.filter_congr fun s _ => ?_
    by_cases h1 : s.id ∈ c <;> by_cases h2 : s.id ∈ css.flatten <;>
      simp [h1, h2, List.mem_append]

theorem applyCalls_adds (css : List (List Track)) (P : List Track) :
    applyCalls P (css.reverse.map fun c => MutCall.add c (some 0))
      = css.flatten ++ P := by
  induction css generalizing P with
  | nil => rfl
  | cons c css ih =>
    rw [List.reverse_cons, List.map_append, applyCalls_append, ih]
    show applyCall (css.flatten ++ P) (MutCall.add c (some 0)) = _
    simp [applyCall]

theorem reconcileApply_eq (liked P : List Track) :
    reconcileApply liked P
      = tracksToAdd liked P
          ++ P.filter fun s => decide (s.id ∉ tracksToRemoveIds liked P) := by
  unfold reconcileApply reconcileCalls removeTracksCalls addTracksCalls
  rw [applyCalls_append, applyCalls_removes, chunksOf100_flatten, applyCalls_adds,
    chunksOf100_flatten]

theorem mem_reconcileApply_iff (liked P : List Track) (i : String) :
    i ∈ (reconcileApply liked P).map Track.id ↔ i ∈ liked.map Track.id := by
  rw [reconcileApply_eq, List.map_append, List.mem_append]
  constructor
  · rintro (h | h)
    · obtain ⟨s, hs, rfl⟩ := List.mem_map.mp h
      exact List.mem_map.mpr ⟨s, (List.mem_filter.mp hs).1, rfl⟩
    · obtain ⟨s, hs, rfl⟩ := List.mem_map.mp h
      obtain ⟨hsP, hskeep⟩ := List.mem_filter.mp hs
      by_contra hnl
      have hpid : s.id ∈ effectivePlaylistIds P :=
        List.mem_dedup.mpr (List.mem_map.mpr ⟨s, hsP, rfl⟩)
      have hrem : s.id ∈ tracksToRemoveIds liked P :=
        List.mem_filter.mpr ⟨hpid, by simpa using hnl⟩
      simp [hrem] at hskeep
  · intro h
    obtain ⟨s, hsl, rfl⟩ := List.mem_map.mp h
    by_cases hp : s.id ∈ effectivePlaylistIds P
    · obtain ⟨u, huP, huid⟩ := List.mem_map.mp (List.mem_dedup.mp hp)
      refine Or.inr (List.mem_map.mpr ⟨u, List.mem_filter.mpr ⟨huP, ?_⟩, huid⟩)
      have hnotrem : u.id ∉ tracksToRemoveIds liked P := by
        intro hmem
        have := (List.mem_filter.mp hmem).2
        rw [huid] at this
        simp [List.mem_map] at this
        exact this s hsl rfl
      simpa using hnotrem
    · exact Or.inl (List.mem_map.mpr ⟨s, List.mem_filter.mpr ⟨hsl, by simpa using hp⟩, rfl⟩)

/-- C1: after a reconcile run over fetched liked tracks and playlist state
(the code has no ignored set, i.e. it is the default empty one), the resulting
playlist track-id set equals the liked track-id set: an id is in the final
playlist exactly when it is a liked id. -/
theorem reconcile_track_set_C1 (liked P : List Track) (i : String) :
    i ∈ (reconcileApply liked P).map Track.id ↔ i ∈ liked.map Track.id :=
  mem_reconcileApply_iff liked P i

/-- C8: a second reconcile run immediately after a first one (no external
changes in between) computes empty to-add and to-remove sets, reports
`synced_count = 0`, and leaves the remote playlist unchanged. -/
theorem reconcile_idempotent_C8 (liked P : List Track) :
    tracksToAdd liked (reconcileApply liked P) = []
    ∧ tracksToRemoveIds liked (reconcileApply liked P) = []
    ∧ syncedCount liked (reconcileApply liked P) = 0
    ∧ reconcileApply liked (reconcileApply liked P) = reconcileApply liked P := by
  have hAdd : tracksToAdd liked (reconcileApply liked P) = [] := by
    refine List.filter_eq_nil_iff.mpr fun s hs => ?_
    have hmem : s.id ∈ (reconcileApply liked P).map Track.id :=
      (mem_reconcileApply_iff liked P s.id).mpr (List.mem_map.mpr ⟨s, hs, rfl⟩)
    simp [effectivePlaylistIds, List.mem_dedup, hmem]
  have hRem : tracksToRemoveIds liked (reconcileApply liked P) = [] := by
    refine List.filter_eq_nil_iff.mpr fun i hi => ?_
    have hmem : i ∈ (reconcileApply liked P).map Track.id :=
      List.mem_dedup.mp (by simpa [effectivePlaylistIds] using hi)
    have hl : i ∈ liked.map Track.id := (mem_reconcileApply_iff liked P i).mp hmem
    simp [hl]
  have hCalls : reconcileCalls liked (reconcileApply liked P) = [] := by
    unfold reconcileCalls removeTracksCalls addTracksCalls
    rw [hAdd, hRem, chunksOf100_nil]
    rfl
  refine ⟨hAdd, hRem, ?_, ?_⟩
  · rw [syncedCount, hAdd]
    rfl
  · show applyCalls _ (reconcileCalls liked (reconcileApply liked P)) = _
    rw [hCalls]
    rfl

/-- C9 counterexample: the caller intends the non-empty ignored set
containing id "A", yet `run_sync_logic` accepts no ignored set at all: with
track A liked and absent from the playlist, the run adds A to the playlist,
contradicting the claim that a track in a non-empty ignored set is never
added. -/
theorem exclusion_C9_counterexample :
    ("A" ∈ ["A"]) ∧ "A" ∈ (reconcileApply [tA] []).map Track.id := by
  decide

/-- C9 amended: `run_sync_logic` has no `ignored_ids` input; every liked
track whose id is absent from the playlist is put in the to-add set
unconditionally, regardless of any ignored set the caller may hold. -/
theorem exclusion_C9_amended (liked P : List Track) (s : Track)
    (hs : s ∈ liked) (habs : s.id ∉ P.map Track.id) :
    s ∈ tracksToAdd liked P :=
  List.mem_filter.mpr ⟨hs, by simp [effectivePlaylistIds, List.mem_dedup, habs]⟩

theorem exclusion_C9_amended_witness : tA ∈ tracksToAdd [tA] [] :=
  exclusion_C9_amended [tA] [] tA (by decide) (by decide)

/-- C7: a to-add list of exactly 250 tracks is chunked into 100/100/50 and
submitted as exactly three head-insertion calls in reverse chunk order: the
50-element tail chunk first, the 100-element head chunk last, each at
position 0; the chunks concatenate back to the original list in order. -/
theorem addTracks_batching_C7 (ts : List Track) (h : ts.length = 250) :
    addTracksCalls ts
      = [MutCall.add (ts.drop 200) (some 0),
         MutCall.add ((ts.drop 100).take 100) (some 0),
         MutCall.add (ts.take 100) (some 0)]
    ∧ (ts.take 100).length = 100
    ∧ ((ts.drop 100).take 100).length = 100
    ∧ (ts.drop 200).length = 50
    ∧ ts.take 100 ++ ((ts.drop 100).take 100 ++ ts.drop 200) = ts := by
  have h50 : (ts.drop 200).length = 50 := by
    rw [List.length_drop, h]
  have htk : (ts.drop 200).take 100 = ts.drop 200 :=
    List.take_of_length_le (by rw [h50]; norm_num)
  have h3 : (ts.length + 99) / 100 = 3 := by rw [h]
  have hc : chunksOf100 ts
      = [ts.take 100, (ts.drop 100).take 100, (ts.drop 200).take 100] := by
    unfold chunksOf100
    rw [h3, show List.range 3 = [0, 1, 2] by decide]
    norm_num
  refine ⟨?_, ?_, ?_, h50, ?_⟩
  · unfold addTracksCalls
    rw [hc, htk]
    rfl
  · rw [List.length_take, h]
    norm_num
  · rw [List.length_take, List.length_drop, h]
    norm_num
  · rw [show ts.drop 200 = (ts.drop 100).drop 100 by rw [List.drop_drop],
      List.take_append_drop, List.take_append_drop]

theorem addTracks_batching_C7_witness :
    addTracksCalls sample250
      = [MutCall.add (sample250.drop 200) (some 0),
         MutCall.add ((sample250.drop 100).take 100) (some 0),
         MutCall.add (sample250.take 100) (some 0)]
    ∧ (sample250.take 100).length = 100
    ∧ ((sample250.drop 100).take 100).length = 100
    ∧ (sample250.drop 200).length = 50
    ∧ sample250.take 100 ++ ((sample250.drop 100).take 100 ++ sample250.drop 200)
        = sample250 :=
  addTracks_batching_C7 sample250 (by simp [sample250])

theorem remove_last_x_songs_eq (st : SpotState) (user pl : String) (n : Int) (b t : Nat)
    (h0 : 0 < n) (hle : n ≤ (st.playlist.length : Int)) :
    remove_last_x_songs st user pl n b t
      = (⟨st.playlist.filter fun s =>
            decide (s.id ∉ (st.playlist.drop (st.playlist.length - n.toNat)).map Track.id),
          log_deleted_songs st.dbUp st.db user pl
            (st.playlist.drop (st.playlist.length - n.toNat)) b t, st.dbUp⟩,
         ⟨true, some (st.playlist.drop (st.playlist.length - n.toNat)).length, some b⟩,
         [MutCall.remove ((st.playlist.drop (st.playlist.length - n.toNat)).map Track.id)]) := by
  unfold remove_last_x_songs
  rw [if_neg (by omega), if_neg (by omega)]
  simp [applyCalls, applyCall]

/-- C4: delete_last with n larger than the playlist's track count fails
validation: it returns success false, issues zero remote mutation calls, and
leaves the state untouched. -/
theorem delete_bounds_C4 (st : SpotState) (user pl : String) (n : Int) (b t : Nat)
    (h : (st.playlist.length : Int) < n) :
    (remove_last_x_songs st user pl n b t).2.1.success = false
    ∧ (remove_last_x_songs st user pl n b t).2.2 = []
    ∧ (remove_last_x_songs st user pl n b t).1 = st := by
  unfold remove_last_x_songs
  split_ifs with h1 <;> exact ⟨rfl, rfl, rfl⟩

theorem delete_bounds_C4_witness :
    (remove_last_x_songs ⟨[tA, tB, tC, tD, tE], [], true⟩ "u" "p" 10 0 0).2.1.success = false
    ∧ (remove_last_x_songs ⟨[tA, tB, tC, tD, tE], [], true⟩ "u" "p" 10 0 0).2.2 = []
    ∧ (remove_last_x_songs ⟨[tA, tB, tC, tD, tE], [], true⟩ "u" "p" 10 0 0).1
        = ⟨[tA, tB, tC, tD, tE], [], true⟩ :=
  delete_bounds_C4 ⟨[tA, tB, tC, tD, tE], [], true⟩ "u" "p" 10 0 0 (by decide)

/-- C2 (code bug): `remove_last_x_songs` issues its removal as a single
unchunked `playlist_remove_all_occurrences_of_items` call (line 183), unlike
the 100-chunked `_remove_tracks` and `_add_tracks` used by reconcile: at
n = 101 on a 101-track playlist the one remote mutation call carries 101
track ids, exceeding the 100-per-call ceiling the claim states. -/
theorem delete_unchunked_C2 :
    (remove_last_x_songs ⟨List.replicate 101 tA, [], true⟩ "u" "p" 101 7 3).2.2
      = [MutCall.remove (List.replicate 101 "A")]
    ∧ 100 < (List.replicate 101 "A").length := by
  decide

/-- C3 counterexample: with the ledger store unreachable (`dbUp = false`,
i.e. `get_db_connection` returns None), delete_last(1) on a one-track
playlist does not abort: it still issues the remote removal call and reports
success, while the ledger stays unchanged — contradicting the claim that the
operation aborts before any remote mutation. -/
theorem delete_ledger_down_C3_counterexample :
    (remove_last_x_songs ⟨[tA], [], false⟩ "u" "p" 1 0 0).2.2 ≠ []
    ∧ (remove_last_x_songs ⟨[tA], [], false⟩ "u" "p" 1 0 0).2.1.success = true
    ∧ (remove_last_x_songs ⟨[tA], [], false⟩ "u" "p" 1 0 0).1.db = [] := by
  decide

/-- C3 amended: when the durable ledger store is unreachable at record time,
delete_last does not abort: `log_deleted_songs` silently returns with the
ledger unchanged, the remote removal of the trailing n tracks is still
issued, and the operation reports success. -/
theorem delete_ledger_down_C3_amended (P : List Track) (db : List LedgerRow)
    (user pl : String) (n : Int) (b t : Nat)
    (h0 : 0 < n) (hle : n ≤ (P.length : Int)) :
    (remove_last_x_songs ⟨P, db, false⟩ user pl n b t).2.1.success = true
    ∧ (remove_last_x_songs ⟨P, db, false⟩ user pl n b t).1.db = db
    ∧ (remove_last_x_songs ⟨P, db, false⟩ user pl n b t).2.2
        = [MutCall.remove ((P.drop (P.length - n.toNat)).map Track.id)] := by
  rw [remove_last_x_songs_eq _ user pl n b t h0 hle]
  exact ⟨rfl, by simp [log_deleted_songs], rfl⟩

theorem delete_ledger_down_C3_amended_witness :
    (remove_last_x_songs ⟨[tA], [], false⟩ "w" "q" 1 5 6).2.1.success = true
    ∧ (remove_last_x_songs ⟨[tA], [], false⟩ "w" "q" 1 5 6).1.db = []
    ∧ (remove_last_x_songs ⟨[tA], [], false⟩ "w" "q" 1 5 6).2.2
        = [MutCall.remove (([tA].drop ([tA].length - (1 : Int).toNat)).map Track.id)] :=
  delete_ledger_down_C3_amended [tA] [] "w" "q" 1 5 6 (by decide) (by decide)

theorem latestRow_cons (r : LedgerRow) (rs : List LedgerRow) :
    latestRow (r :: rs)
      = match latestRow rs with
        | none => some r
        | some m => if r.deletedAt ≥ m.deletedAt then some r else some m := rfl

theorem latestRow_all_eq (t : Nat) :
    ∀ rows : List LedgerRow, (∀ r ∈ rows, r.deletedAt = t) →
      latestRow rows = rows.head? := by
  intro rows
  induction rows with
  | nil => intro _; rfl
  | cons r rs ih =>
    intro hall
    have hr : latestRow rs = rs.head? := ih fun x hx => hall x (List.mem_cons_of_mem _ hx)
    cases rs with
    | nil => rfl
    | cons r2 rs2 =>
      rw [latestRow_cons, hr]
      show (if r.deletedAt ≥ r2.deletedAt then some r else some r2) = some r
      rw [hall r (List.mem_cons_self ..), hall r2 (by simp), if_pos (le_refl t)]

theorem latestRow_append_lt (t : Nat) (xs ys : List LedgerRow)
    (hx : ∀ r ∈ xs, r.deletedAt < t) (hy : ∀ r ∈ ys, r.deletedAt = t)
    (hne : ys ≠ []) :
    latestRow (xs ++ ys) = ys.head? := by
  induction xs with
  | nil => simpa using latestRow_all_eq t ys hy
  | cons x xs ih =>
    rw [List.cons_append, latestRow_cons,
      ih fun r hr => hx r (List.mem_cons_of_mem _ hr)]
    obtain ⟨y, ys2, rfl⟩ := List.exists_cons_of_ne_nil hne
    show (if x.deletedAt ≥ y.deletedAt then some x else some y) = some y
    have h1 := hx x (List.mem_cons_self ..)
    have h2 := hy y (List.mem_cons_self ..)
    rw [if_neg (by omega)]

theorem get_last_deleted_batch_true (db : List LedgerRow) (user pl : String) :
    get_last_deleted_batch true db user pl
      = match latestRow (db.filter fun r => decide (r.user = user ∧ r.playlistId = pl)) with
        | none => (none, [])
        | some m =>
            (some m.batch,
             (db.filter fun r => decide (r.batch = m.batch)).map
               fun r => (r.songId, r.songUri)) := rfl

theorem get_last_after_log (db : List LedgerRow) (user pl : String)
    (tracks : List Track) (b t : Nat)
    (hne : tracks ≠ [])
    (hts : ∀ r ∈ db, r.deletedAt < t)
    (hb : ∀ r ∈ db, r.batch ≠ b) :
    get_last_deleted_batch true (db ++ tracks.map (mkRow user pl b t)) user pl
      = (some b, tracks.map fun s => (s.id, s.uri)) := by
  obtain ⟨s0, rest, rfl⟩ := List.exists_cons_of_ne_nil hne
  rw [get_last_deleted_batch_true]
  have hpair : ((db ++ (s0 :: rest).map (mkRow user pl b t)).filter
      fun r => decide (r.user = user ∧ r.playlistId = pl))
      = (db.filter fun r => decide (r.user = user ∧ r.playlistId = pl))
        ++ (s0 :: rest).map (mkRow user pl b t) := by
    rw [List.filter_append]
    congr 1
    refine List.filter_eq_self.mpr fun r hr => ?_
    obtain ⟨s, _, rfl⟩ := List.mem_map.mp hr
    simp [mkRow]
  rw [hpair]
  have hlat := latestRow_append_lt t
    (db.filter fun r => decide (r.user = user ∧ r.playlistId = pl))
    ((s0 :: rest).map (mkRow user pl b t))
    (fun r hr => hts r (List.mem_filter.mp hr).1)
    (fun r hr => by obtain ⟨s, _, rfl⟩ := List.mem_map.mp hr; rfl)
    (by simp)
  rw [hlat]
  show (some b, ((db ++ (s0 :: rest).map (mkRow user pl b t)).filter
      fun r => decide (r.batch = b)).map fun r => (r.songId, r.songUri))
    = (some b, (s0 :: rest).map fun s => (s.id, s.uri))
  have hbatch : ((db ++ (s0 :: rest).map (mkRow user pl b t)).filter
      fun r => decide (r.batch = b)) = (s0 :: rest).map (mkRow user pl b t) := by
    rw [List.filter_append]
    have h1 : (db.filter fun r => decide (r.batch = b)) = [] :=
      List.filter_eq_nil_iff.mpr fun r hr => by simp [hb r hr]
    have h2 : (((s0 :: rest).map (mkRow user pl b t)).filter
        fun r => decide (r.batch = b)) = (s0 :: rest).map (mkRow user pl b t) :=
      List.filter_eq_self.mpr fun r hr => by
        obtain ⟨s, _, rfl⟩ := List.mem_map.mp hr
        simp [mkRow]
    rw [h1, h2, List.nil_append]
  rw [hbatch, List.map_map]
  rfl

theorem clear_after_log (db : List LedgerRow) (user pl : String)
    (tracks : List Track) (b t : Nat)
    (hb : ∀ r ∈ db, r.batch ≠ b) :
    clear_deleted_batch true (db ++ tracks.map (mkRow user pl b t)) b = db := by
  show (db ++ tracks.map (mkRow user pl b t)).filter (fun r => decide (r.batch ≠ b)) = db
  rw [List.filter_append]
  have h1 : (db.filter fun r => decide (r.batch ≠ b)) = db :=
    List.filter_eq_self.mpr fun r hr => by simp [hb r hr]
  have h2 : ((tracks.map (mkRow user pl b t)).filter fun r => decide (r.batch ≠ b)) = [] :=
    List.filter_eq_nil_iff.mpr fun r hr => by
      obtain ⟨s, _, rfl⟩ := List.mem_map.mp hr
      simp [mkRow]
  rw [h1, h2, List.append_nil]

theorem get_last_no_rows (db : List LedgerRow) (user pl : String)
    (hpair : ∀ r ∈ db, ¬ (r.user = user ∧ r.playlistId = pl)) :
    get_last_deleted_batch true db user pl = (none, []) := by
  rw [get_last_deleted_batch_true]
  have h1 : (db.filter fun r => decide (r.user = user ∧ r.playlistId = pl)) = [] :=
    List.filter_eq_nil_iff.mpr fun r hr => by simpa using hpair r hr
  rw [h1]
  rfl

/-- C5: recording a batch and immediately reading the latest batch back for
the same (user, playlist) pair returns exactly the recorded tracks
(as id/uri pairs) in the order passed to record, tagged with the recorded
batch id; and after clearing that batch id, when no other batch exists for
the pair, the latest lookup is empty. Hypotheses: the batch id is fresh and
its transaction timestamp is newer than everything already in the table. -/
theorem ledger_roundtrip_C5 (db : List LedgerRow) (user pl : String)
    (tracks : List Track) (b t : Nat)
    (hne : tracks ≠ [])
    (hts : ∀ r ∈ db, r.deletedAt < t)
    (hb : ∀ r ∈ db, r.batch ≠ b) :
    get_last_deleted_batch true (log_deleted_songs true db user pl tracks b t) user pl
      = (some b, tracks.map fun s => (s.id, s.uri))
    ∧ ((∀ r ∈ db, ¬ (r.user = user ∧ r.playlistId = pl)) →
        get_last_deleted_batch true
            (clear_deleted_batch true (log_deleted_songs true db user pl tracks b t) b)
            user pl
          = (none, [])) := by
  have hlog : log_deleted_songs true db user pl tracks b t
      = db ++ tracks.map (mkRow user pl b t) := by
    simp [log_deleted_songs]
  refine ⟨?_, fun hpair => ?_⟩
  · rw [hlog]
    exact get_last_after_log db user pl tracks b t hne hts hb
  · rw [hlog, clear_after_log db user pl tracks b t hb]
    exact get_last_no_rows db user pl hpair

theorem ledger_roundtrip_C5_witness :
    get_last_deleted_batch true (log_deleted_songs true [] "u" "p" [tA, tB] 0 1) "u" "p"
      = (some 0, [tA, tB].map fun s => (s.id, s.uri))
    ∧ get_last_deleted_batch true
          (clear_deleted_batch true (log_deleted_songs true [] "u" "p" [tA, tB] 0 1) 0)
          "u" "p"
        = (none, []) :=
  ⟨(ledger_roundtrip_C5 [] "u" "p" [tA, tB] 0 1 (by decide) (by decide) (by decide)).1,
   (ledger_roundtrip_C5 [] "u" "p" [tA, tB] 0 1 (by decide) (by decide) (by decide)).2
     (by decide)⟩

theorem filter_not_mem_drop_length_lt (T D : List Track)
    (hdup : ∃ s ∈ T, s.id ∈ D.map Track.id) :
    ((T ++ D).filter fun s => decide (s.id ∉ D.map Track.id)).length < T.length := by
  rw [List.filter_append, List.length_append]
  have hdropnil : (D.filter fun s => decide (s.id ∉ D.map Track.id)) = [] := by
    refine List.filter_eq_nil_iff.mpr fun s hs => ?_
    simp only [decide_eq_true_eq]
    exact not_not_intro (List.mem_map.mpr ⟨s, hs, rfl⟩)
  rw [hdropnil]
  have htake : ((T.filter fun s => decide (s.id ∉ D.map Track.id))).length < T.length := by
    refine List.length_filter_lt_length_iff_exists.mpr ?_
    obtain ⟨s, hs, hsid⟩ := hdup
    refine ⟨s, hs, ?_⟩
    simp only [decide_eq_true_eq]
    exact not_not_intro hsid
  simpa using htake

theorem undo_last_deletion_eq_some (st : SpotState) (user pl : String) (b : Nat)
    (songs : List (String × String))
    (hget : get_last_deleted_batch st.dbUp st.db user pl = (some b, songs))
    (hne : songs ≠ []) :
    undo_last_deletion st user pl
      = (⟨st.playlist ++ songs.map fun su => Track.mk su.1 su.2,
          clear_deleted_batch st.dbUp st.db b, st.dbUp⟩,
         ⟨true, some songs.length⟩,
         [MutCall.add (songs.map fun su => Track.mk su.1 su.2) none]) := by
  unfold undo_last_deletion
  rw [hget]
  show (if songs.isEmpty then _ else _) = _
  rw [if_neg (by simpa [List.isEmpty_iff] using hne)]
  simp [applyCalls, applyCall]

theorem undo_last_deletion_eq_none (st : SpotState) (user pl : String)
    (hget : get_last_deleted_batch st.dbUp st.db user pl = (none, [])) :
    undo_last_deletion st user pl = (st, ⟨false, none⟩, []) := by
  unfold undo_last_deletion
  rw [hget]

/-- C6: on any playlist with at least two tracks and an empty ledger,
delete_last(n=2) succeeds on the trailing two tracks; the first undo_last
succeeds, reports restored_count 2, and appends exactly those two tracks
back at the playlist's tail with one remote add call; a second immediate
undo_last reports success false, issues no remote call, and changes
nothing. -/
theorem undo_correct_C6 (P : List Track) (user pl : String) (b t : Nat)
    (h : 2 ≤ P.length) :
    (deleteStep P user pl b t).2.1.success = true
    ∧ (undoStep1 P user pl b t).2.1.success = true
    ∧ (undoStep1 P user pl b t).2.1.restoredCount = some 2
    ∧ (undoStep1 P user pl b t).1.playlist
        = (deleteStep P user pl b t).1.playlist ++ P.drop (P.length - 2)
    ∧ (undoStep2 P user pl b t).2.1.success = false
    ∧ (undoStep2 P user pl b t).1 = (undoStep1 P user pl b t).1
    ∧ (undoStep2 P user pl b t).2.2 = [] := by
  have hlen2 : (P.drop (P.length - 2)).length = 2 := by
    rw [List.length_drop]
    omega
  have hdropne : P.drop (P.length - 2) ≠ [] := by
    intro hnil
    rw [hnil] at hlen2
    simp at hlen2
  have heval : deleteStep P user pl b t
      = (⟨P.filter fun s => decide (s.id ∉ (P.drop (P.length - 2)).map Track.id),
          (P.drop (P.length - 2)).map (mkRow user pl b t), true⟩,
         ⟨true, some (P.drop (P.length - 2)).length, some b⟩,
         [MutCall.remove ((P.drop (P.length - 2)).map Track.id)]) := by
    unfold deleteStep
    rw [remove_last_x_songs_eq _ user pl 2 b t (by norm_num)
      (by show (2 : Int) ≤ ((P.length : Nat) : Int); omega)]
    rfl
  have heval1 : (deleteStep P user pl b t).1
      = ⟨P.filter fun s => decide (s.id ∉ (P.drop (P.length - 2)).map Track.id),
         (P.drop (P.length - 2)).map (mkRow user pl b t), true⟩ := by
    rw [heval]
  have hget := get_last_after_log [] user pl (P.drop (P.length - 2)) b t hdropne
    (by simp) (by simp)
  simp only [List.nil_append] at hget
  have hclear := clear_after_log [] user pl (P.drop (P.length - 2)) b t (by simp)
  simp only [List.nil_append] at hclear
  have hrestore : (((P.drop (P.length - 2)).map fun s => (s.id, s.uri)).map
      fun su => Track.mk su.1 su.2) = P.drop (P.length - 2) := by
    rw [List.map_map]
    exact List.map_id _
  have hsongsne : ((P.drop (P.length - 2)).map fun s => (s.id, s.uri)) ≠ [] := by
    simpa using hdropne
  have hundo1 : undoStep1 P user pl b t
      = (⟨(P.filter fun s => decide (s.id ∉ (P.drop (P.length - 2)).map Track.id))
            ++ P.drop (P.length - 2), [], true⟩,
         ⟨true, some 2⟩,
         [MutCall.add (P.drop (P.length - 2)) none]) := by
    unfold undoStep1
    rw [heval1]
    rw [undo_last_deletion_eq_some _ user pl b
      ((P.drop (P.length - 2)).map fun s => (s.id, s.uri)) hget hsongsne]
    simp only [hrestore, hclear, List.length_map, hlen2]
  have hundo1s : (undoStep1 P user pl b t).1
      = ⟨(P.filter fun s => decide (s.id ∉ (P.drop (P.length - 2)).map Track.id))
            ++ P.drop (P.length - 2), [], true⟩ := by
    rw [hundo1]
  have hundo2 : undoStep2 P user pl b t
      = (⟨(P.filter fun s => decide (s.id ∉ (P.drop (P.length - 2)).map Track.id))
            ++ P.drop (P.length - 2), [], true⟩,
         ⟨false, none⟩, []) := by
    unfold undoStep2
    rw [hundo1s]
    exact undo_last_deletion_eq_none _ user pl rfl
  refine ⟨?_, ?_, ?_, ?_, ?_, ?_, ?_⟩
  · rw [heval]
  · rw [hundo1]
  · rw [hundo1]
  · rw [hundo1, heval]
  · rw [hundo2]
  · rw [hundo2, hundo1]
  · rw [hundo2]

theorem undo_correct_C6_witness :
    (deleteStep [tA, tB, tC, tD, tE] "u" "p" 9 1).2.1.success = true
    ∧ (undoStep1 [tA, tB, tC, tD, tE] "u" "p" 9 1).2.1.success = true
    ∧ (undoStep1 [tA, tB, tC, tD, tE] "u" "p" 9 1).2.1.restoredCount = some 2
    ∧ (undoStep1 [tA, tB, tC, tD, tE] "u" "p" 9 1).1.playlist
        = (deleteStep [tA, tB, tC, tD, tE] "u" "p" 9 1).1.playlist
            ++ [tA, tB, tC, tD, tE].drop ([tA, tB, tC, tD, tE].length - 2)
    ∧ (undoStep2 [tA, tB, tC, tD, tE] "u" "p" 9 1).2.1.success = false
    ∧ (undoStep2 [tA, tB, tC, tD, tE] "u" "p" 9 1).1
        = (undoStep1 [tA, tB, tC, tD, tE] "u" "p" 9 1).1
    ∧ (undoStep2 [tA, tB, tC, tD, tE] "u" "p" 9 1).2.2 = [] :=
  undo_correct_C6 [tA, tB, tC, tD, tE] "u" "p" 9 1 (by decide)

/-- C10: when one of the trailing n tracks' ids also occurs earlier in the
playlist, the unchunked remove-all-occurrences call deletes every entry with
that id: deleted_count is still reported as n, but strictly more than n
playlist entries disappear, and no entry with a deleted id survives. -/
theorem delete_dup_overshoot_C10 (P : List Track) (db : List LedgerRow)
    (user pl : String) (n b t : Nat) (h0 : 0 < n) (hn : n ≤ P.length)
    (hdup : ∃ s ∈ P.take (P.length - n), s.id ∈ (P.drop (P.length - n)).map Track.id) :
    (remove_last_x_songs ⟨P, db, true⟩ user pl (n : Int) b t).2.1.deletedCount = some n
    ∧ (remove_last_x_songs ⟨P, db, true⟩ user pl (n : Int) b t).1.playlist.length + n
        < P.length
    ∧ ∀ s ∈ (remove_last_x_songs ⟨P, db, true⟩ user pl (n : Int) b t).1.playlist,
        s.id ∉ (P.drop (P.length - n)).map Track.id := by
  rw [remove_last_x_songs_eq _ user pl (n : Int) b t (by omega)
    (by show (n : Int) ≤ ((P.length : Nat) : Int); omega)]
  simp only [Int.toNat_natCast]
  refine ⟨?_, ?_, ?_⟩
  · show some (P.drop (P.length - n)).length = some n
    rw [List.length_drop]
    congr 1
    omega
  · show (P.filter _).length + n < P.length
    have hsplit : P = P.take (P.length - n) ++ P.drop (P.length - n) :=
      (List.take_append_drop _ _).symm
    have hkey := filter_not_mem_drop_length_lt
      (P.take (P.length - n)) (P.drop (P.length - n)) hdup
    rw [← hsplit] at hkey
    have hlen : (P.take (P.length - n)).length = P.length - n := by
      rw [List.length_take]
      exact inf_eq_left.mpr (Nat.sub_le _ _)
    omega
  · intro s hs
    have := (List.mem_filter.mp hs).2
    simpa using this

theorem delete_dup_overshoot_C10_witness :
    (remove_last_x_songs ⟨[Track.mk "A" "u1", tB, Track.mk "A" "u3"], [], true⟩
        "u" "p" ((1 : Nat) : Int) 0 0).2.1.deletedCount = some 1
    ∧ (remove_last_x_songs ⟨[Track.mk "A" "u1", tB, Track.mk "A" "u3"], [], true⟩
        "u" "p" ((1 : Nat) : Int) 0 0).1.playlist.length + 1
        < [Track.mk "A" "u1", tB, Track.mk "A" "u3"].length :=
  ⟨(delete_dup_overshoot_C10 [Track.mk "A" "u1", tB, Track.mk "A" "u3"] [] "u" "p" 1 0 0
      (by decide) (by decide) (by decide)).1,
   (delete_dup_overshoot_C10 [Track.mk "A" "u1", tB, Track.mk "A" "u3"] [] "u" "p" 1 0 0
      (by decide) (by decide) (by decide)).2.1⟩

end SyncSpec
